import Mathlib

/-!
# Verification of the conversion-reconciliation and aggregation core

Shallow embedding of the conversion-metric reconciliation and aggregation
logic of the repository:

* `get_correct_conversion_count` — the 35:1 ratio heuristic (Policy A),
  from `facebook_api_to_json/main.py`;
* `process_custom_conversions_from_actions` — the max-28d_click heuristic
  (Policy B), from `src/streamlit_app.py`;
* `date_range_iterator` — the half-open window generator, from
  `facebook_api_to_json/src/utils/date_utils.py` (the same loop appears as
  `_date_range_iterator` in `src/fb_fetcher.py`);
* `fetch_insights_windows` — the date validation plus window loop of
  `fetch_insights` in `src/fb_fetcher.py`;
* `main_run` / `fetch_daily_data` — the day-by-day best-effort loop of
  `facebook_api_to_json/src/main.py`;
* `rollup` / `derived_rates` — the date-filtered per-ad aggregation and
  derived-rate computation of `display_performance_metrics` in
  `src/streamlit_app.py`.

Modelling conventions:
* Calendar dates and datetimes are modelled as integers (whole days);
  `timedelta(days=k)` is `+ k` and date comparison is integer comparison.
  All date arithmetic in the modelled code moves in whole days.
* A raw numeric field (a `numeric-as-string` value in an action entry) is
  modelled by its `float()` parse outcome: `some q` when Python's `float`
  would return the real number `q`, `none` when `float` (or `float(None)`)
  would raise `ValueError`/`TypeError`.  Python's `int(...)` applied to the
  parse result truncates toward zero (`pyTrunc`).
* Python exceptions are modelled with `Except`: code that may raise an
  uncaught exception returns `Except PyErr _` / `Except String _`; a
  `try/except` that skips an entry is modelled by the `Option` parse
  outcome being consumed without propagating.
-/

/-- Truncation toward zero: the behaviour of Python's `int()` on a float
(here on the exact rational the float denotes). -/
def pyTrunc (q : ℚ) : ℤ := q.num.tdiv (q.den : ℤ)

/-- One element of an `actions` / `action_values` array: a dict with an
`action_type` key and optional attribution-window keys.  A window key is
`none` when absent from the dict; when present it holds the `float()` parse
outcome of the raw value (`none` = the parse raises). -/
structure ActionEntry where
  action_type : String
  click1d : Option (Option ℚ)
  click28d : Option (Option ℚ)
deriving DecidableEq

/-- The action type the reconciliation logic filters on. -/
def customType : String := "offsite_conversion.fb_pixel_custom"

/-- `int(float(action.get('1d_click', 0)))` for one entry, with the
`ValueError`/`TypeError` outcome surfaced as `none` (the caller's
`try/except` turns it into a skip).  A missing `'1d_click'` key defaults to
`0`, which always parses. -/
def parse_1d_click (a : ActionEntry) : Option ℤ :=
  match a.click1d with
  | none => some 0
  | some none => none
  | some (some q) => some (pyTrunc q)

/-- The `for action in actions:` loop of `get_correct_conversion_count`:
starting from `None`, overwrite the accumulator with the parsed
`1d_click` of every entry whose `action_type` matches; a parse failure
hits `continue` and leaves the accumulator unchanged. -/
def lastConv (entries : List ActionEntry) : Option ℤ :=
  entries.foldl
    (fun acc a =>
      if a.action_type = customType then
        match parse_1d_click a with
        | none => acc
        | some v => some v
      else acc)
    none

/-- Policy A: `get_correct_conversion_count(insight_data)` from
`facebook_api_to_json/main.py` (lines 49–94), with the two scan loops,
the missing/zero checks, and the 35:1 ratio test.  The Python float
division `larger / smaller` is modelled by exact rational division (it is
reached only with nonzero `smaller`, see `ratio_division_never_by_zero`). -/
def get_correct_conversion_count
    (actions action_values : List ActionEntry) : Option ℤ :=
  let conversion_count := lastConv actions
  let conversion_value := lastConv action_values
  match conversion_count, conversion_value with
  | some c, some v =>
    if c = 0 ∧ v = 0 then some 0
    else if c = 0 ∨ v = 0 then none
    else
      let smaller := min c v
      let larger := max c v
      if |(larger : ℚ) / (smaller : ℚ) - 35| < 1 then some smaller else none
  | _, _ => none

/-- Uncaught Python exceptions of the modelled code. -/
inductive PyErr where
  | zeroDivisionError
deriving DecidableEq

/-- `get_correct_conversion_count` with the division site made explicit:
Python would raise `ZeroDivisionError` if `smaller` were `0` at
`larger / smaller`; this variant returns that error in exactly that case
and otherwise behaves as `get_correct_conversion_count`. -/
def get_correct_conversion_count_exc
    (actions action_values : List ActionEntry) : Except PyErr (Option ℤ) :=
  let conversion_count := lastConv actions
  let conversion_value := lastConv action_values
  match conversion_count, conversion_value with
  | some c, some v =>
    if c = 0 ∧ v = 0 then Except.ok (some 0)
    else if c = 0 ∨ v = 0 then Except.ok none
    else
      let smaller := min c v
      let larger := max c v
      if smaller = 0 then Except.error PyErr.zeroDivisionError
      else if |(larger : ℚ) / (smaller : ℚ) - 35| < 1 then
        Except.ok (some smaller)
      else Except.ok none
  | _, _ => Except.ok none

/-- Reference reconciliation for Policy A, written from the specification
text: `count` is the value of the last parseable matching `actions` entry
(the last element of the parses of the matching entries), `value` likewise
from `action_values`; absent if either is missing; `0` if both are exactly
zero; absent if exactly one is zero; otherwise `smaller` iff
`|larger/smaller - 35| < 1`. -/
def reconcileA_ref (actions action_values : List ActionEntry) : Option ℤ :=
  let count :=
    ((actions.filter (fun a => a.action_type = customType)).filterMap
      parse_1d_click).getLast?
  let value :=
    ((action_values.filter (fun a => a.action_type = customType)).filterMap
      parse_1d_click).getLast?
  match count, value with
  | some c, some v =>
    if c = 0 ∧ v = 0 then some 0
    else if (c = 0 ∧ v ≠ 0) ∨ (c ≠ 0 ∧ v = 0) then none
    else
      let smaller := min c v
      let larger := max c v
      if |(larger : ℚ) / (smaller : ℚ) - 35| < 1 then some smaller else none
  | _, _ => none

/-- `int(float(...))` is the identity on integral values. -/
theorem pyTrunc_intCast (n : ℤ) : pyTrunc (n : ℚ) = n := by
  simp [pyTrunc]

/-- The step function of the scan loops of `get_correct_conversion_count`. -/
def lastConvStep (acc : Option ℤ) (a : ActionEntry) : Option ℤ :=
  if a.action_type = customType then
    match parse_1d_click a with
    | none => acc
    | some v => some v
  else acc

theorem lastConv_eq_foldl (entries : List ActionEntry) :
    lastConv entries = entries.foldl lastConvStep none := by
  unfold lastConv lastConvStep
  rfl

/-- The parses of the matching entries, in order. -/
def parsedMatches (entries : List ActionEntry) : List ℤ :=
  (entries.filter (fun a => a.action_type = customType)).filterMap
    parse_1d_click

theorem foldl_lastConvStep_eq (entries : List ActionEntry) :
    ∀ acc : Option ℤ,
      entries.foldl lastConvStep acc = (parsedMatches entries).getLast?.or acc := by
  induction entries using List.reverseRecOn with
  | nil => intro acc; simp [parsedMatches]
  | append_singleton l a ih =>
    intro acc
    rw [List.foldl_append]
    unfold parsedMatches at *
    rcases hmatch : decide (a.action_type = customType) with _ | _
    · have hm : a.action_type = customType ↔ False := by
        simpa using of_decide_eq_false hmatch
      simp only [List.foldl, lastConvStep, if_neg (hm.not.mpr not_false),
        List.filter_append, List.filter_cons, List.filter_nil, hmatch]
      simp [ih acc]
    · have hm : a.action_type = customType := of_decide_eq_true hmatch
      simp only [List.foldl, lastConvStep, if_pos hm, List.filter_append,
        List.filter_cons, List.filter_nil, hmatch, cond_true]
      rcases hp : parse_1d_click a with _ | v
      · simp [hp, ih acc]
      · simp [hp, List.filterMap_append, ih acc]

theorem lastConv_eq (entries : List ActionEntry) :
    lastConv entries = (parsedMatches entries).getLast? := by
  rw [lastConv_eq_foldl, foldl_lastConvStep_eq]
  exact Option.or_none

/-- If the 35:1 ratio test passes on two nonzero integers, the smaller one
is positive (so the value Policy A returns on that branch is positive). -/
theorem ratio_test_forces_pos {c v : ℤ} (hc : c ≠ 0) (hv : v ≠ 0)
    (h : |((max c v : ℤ) : ℚ) / ((min c v : ℤ) : ℚ) - 35| < 1) :
    0 < min c v := by
  by_contra hle
  push_neg at hle
  have hmin : min c v ≠ 0 := by
    rcases min_choice c v with h1 | h1 <;> rw [h1]
    · exact hc
    · exact hv
  have hxint : min c v < 0 := lt_of_le_of_ne hle hmin
  have hx : ((min c v : ℤ) : ℚ) < 0 := by exact_mod_cast hxint
  have hxy : ((min c v : ℤ) : ℚ) ≤ ((max c v : ℤ) : ℚ) := by
    exact_mod_cast min_le_max (a := c) (b := v)
  have h34 : (34 : ℚ) < ((max c v : ℤ) : ℚ) / ((min c v : ℤ) : ℚ) := by
    have habs := abs_lt.mp h
    linarith [habs.1]
  have hx0 : ((min c v : ℤ) : ℚ) ≠ 0 := ne_of_lt hx
  have hlt : ((max c v : ℤ) : ℚ) / ((min c v : ℤ) : ℚ) * ((min c v : ℤ) : ℚ) <
      34 * ((min c v : ℤ) : ℚ) := mul_lt_mul_of_neg_right h34 hx
  rw [div_mul_cancel₀ _ hx0] at hlt
  linarith

/-- A concrete actions entry whose matching `1d_click` value parses to the
integer `n`. -/
def entry1d (n : ℤ) : ActionEntry := ⟨customType, some (some (n : ℚ)), none⟩

/-- An actions entry of the matching action type whose `1d_click` value
fails numeric parsing (`float()` raises on it). -/
def badEntry : ActionEntry := ⟨customType, some none, none⟩

/-- C10: the division `larger / smaller` in Policy A's ratio check is never
a division by zero.  The exception-explicit model, which raises
`ZeroDivisionError` exactly when `smaller = 0` at the division site, always
returns `ok` — and agrees with the total model — because the earlier
missing-value, both-zero and one-zero returns guarantee both candidates are
nonzero when control reaches the ratio computation. -/
theorem ratio_division_never_by_zero
    (actions action_values : List ActionEntry) :
    get_correct_conversion_count_exc actions action_values =
      Except.ok (get_correct_conversion_count actions action_values) := by
  unfold get_correct_conversion_count_exc get_correct_conversion_count
  cases hA : lastConv actions with
  | none => rfl
  | some c =>
    cases hB : lastConv action_values with
    | none => rfl
    | some v =>
      by_cases h00 : c = 0 ∧ v = 0
      · simp [h00]
      · by_cases h0 : c = 0 ∨ v = 0
        · simp [h00, h0]
        · push_neg at h0
          have hmin : min c v ≠ 0 := by
            rcases min_choice c v with h1 | h1 <;> rw [h1]
            · exact h0.1
            · exact h0.2
          simp only [if_neg h00, if_neg (not_or_intro h0.1 h0.2), hmin,
            if_false]
          split <;> rfl

theorem lastConv_single (n : ℤ) : lastConv [entry1d n] = some n := by
  simp [lastConv, entry1d, parse_1d_click, pyTrunc_intCast]

/-- C1: Policy A's `reconcile` agrees with the reference definition on
every row — count/value are the last parseable matching entries, absent if
either is missing, `0` if both are zero, absent if exactly one is zero,
else `smaller` exactly when `|larger/smaller - 35| < 1`.  In particular
count `70` with value `2` yields `2`, and count `100` with value `2`
(ratio `50`, outside `[34, 36]`) yields absent. -/
theorem policyA_reconcile_eq_reference :
    (∀ actions action_values : List ActionEntry,
       get_correct_conversion_count actions action_values =
         reconcileA_ref actions action_values) ∧
    get_correct_conversion_count [entry1d 70] [entry1d 2] = some 2 ∧
    get_correct_conversion_count [entry1d 100] [entry1d 2] = none := by
  refine ⟨fun actions action_values => ?_, ?_, ?_⟩
  · unfold get_correct_conversion_count reconcileA_ref
    rw [lastConv_eq, lastConv_eq]
    unfold parsedMatches
    cases ((actions.filter (fun a => a.action_type = customType)).filterMap
        parse_1d_click).getLast? with
    | none => rfl
    | some c =>
      cases ((action_values.filter
          (fun a => a.action_type = customType)).filterMap
          parse_1d_click).getLast? with
      | none => rfl
      | some v =>
        by_cases h00 : c = 0 ∧ v = 0
        · simp [h00]
        · have hiff : (c = 0 ∨ v = 0) ↔
              ((c = 0 ∧ v ≠ 0) ∨ (c ≠ 0 ∧ v = 0)) := by tauto
          simp only [if_neg h00, hiff]
  · simp only [get_correct_conversion_count, lastConv_single]
    norm_num
  · simp only [get_correct_conversion_count, lastConv_single]
    norm_num

theorem lastConv_skip (pre post : List ActionEntry) (bad : ActionEntry)
    (hbad : parse_1d_click bad = none) :
    lastConv (pre ++ bad :: post) = lastConv (pre ++ post) := by
  have hstep : ∀ acc, lastConvStep acc bad = acc := by
    intro acc
    unfold lastConvStep
    rw [hbad]
    split <;> rfl
  rw [lastConv_eq_foldl, lastConv_eq_foldl, List.foldl_append,
    List.foldl_append, List.foldl_cons, hstep]

/-- C3 (amended): under Policy A an entry whose count value fails numeric
parsing is skipped — inserting such an entry anywhere in `actions` or in
`action_values` leaves the result unchanged, and the rest of the row is
still processed.  (Under Policy B a malformed `28d_click` value instead
raises, see `policyB_raises_on_malformed_28d_click`.) -/
theorem malformed_numeric_skipped_policyA
    (pre post other : List ActionEntry) (bad : ActionEntry)
    (hbad : parse_1d_click bad = none) :
    get_correct_conversion_count (pre ++ bad :: post) other =
        get_correct_conversion_count (pre ++ post) other ∧
    get_correct_conversion_count other (pre ++ bad :: post) =
        get_correct_conversion_count other (pre ++ post) := by
  constructor <;>
    simp only [get_correct_conversion_count, lastConv_skip _ _ _ hbad]

/-- Witness for `malformed_numeric_skipped_policyA` at a concrete row. -/
theorem malformed_numeric_skipped_policyA_witness :
    parse_1d_click badEntry = none ∧
    get_correct_conversion_count ([entry1d 70] ++ badEntry :: []) [entry1d 2] =
      get_correct_conversion_count ([entry1d 70] ++ []) [entry1d 2] :=
  ⟨rfl,
   (malformed_numeric_skipped_policyA [entry1d 70] [] [entry1d 2] badEntry
     rfl).1⟩

/-- The loop body of `process_custom_conversions_from_actions` from
`src/streamlit_app.py` (lines 806–850): running maximum started at `0`,
entries of other action types skipped, entries without a `'28d_click'`
key skipped, and — there being no `try/except` here —
`int(float(action['28d_click']))` propagates `ValueError` when the raw
value fails numeric parsing. -/
def process_go : List ActionEntry → ℤ → Except String ℤ
  | [], highest => Except.ok highest
  | a :: rest, highest =>
    if a.action_type = customType then
      match a.click28d with
      | none => process_go rest highest
      | some none =>
          Except.error "ValueError: could not convert string to float"
      | some (some q) =>
          process_go rest
            (if highest < pyTrunc q then pyTrunc q else highest)
    else process_go rest highest

/-- Policy B: `process_custom_conversions_from_actions(actions_data)` from
`src/streamlit_app.py`.  (The source returns `0` outright when its input
is not a list; the model takes the list case.) -/
def process_custom_conversions_from_actions
    (actions_data : List ActionEntry) : Except String ℤ :=
  process_go actions_data 0

/-- The parsed `28d_click` values of the matching entries, in order. -/
def parsed28Matches (entries : List ActionEntry) : List ℤ :=
  (entries.filter (fun a => a.action_type = customType)).filterMap
    (fun a =>
      match a.click28d with
      | some (some q) => some (pyTrunc q)
      | _ => none)

/-- A concrete actions entry whose matching `28d_click` value parses to
the integer `n`. -/
def entry28 (n : ℤ) : ActionEntry := ⟨customType, none, some (some (n : ℚ))⟩

/-- A matching actions entry whose `28d_click` value fails numeric
parsing. -/
def bad28Entry : ActionEntry := ⟨customType, none, some none⟩

theorem process_go_eq (entries : List ActionEntry) :
    ∀ highest : ℤ,
      (∀ a ∈ entries, a.action_type = customType → a.click28d ≠ some none) →
      process_go entries highest =
        Except.ok ((parsed28Matches entries).foldl max highest) := by
  induction entries with
  | nil => intro highest _; simp [process_go, parsed28Matches]
  | cons a rest ih =>
    intro highest hok
    have hrest : ∀ b ∈ rest, b.action_type = customType →
        b.click28d ≠ some none :=
      fun b hb => hok b (List.mem_cons_of_mem a hb)
    by_cases hm : a.action_type = customType
    · cases h28 : a.click28d with
      | none =>
        simp only [process_go, if_pos hm, h28]
        rw [ih highest hrest]
        unfold parsed28Matches
        simp [hm, h28]
      | some w =>
        cases w with
        | none => exact absurd h28 (hok a (List.mem_cons_self a rest) hm)
        | some q =>
          have hmax : (if highest < pyTrunc q then pyTrunc q else highest) =
              max highest (pyTrunc q) := by
            rcases le_or_lt (pyTrunc q) highest with h | h
            · rw [if_neg (not_lt.mpr h), max_eq_left h]
            · rw [if_pos h, max_eq_right (le_of_lt h)]
          simp only [process_go, if_pos hm, h28]
          rw [ih _ hrest, hmax]
          unfold parsed28Matches
          simp [hm, h28]
    · simp only [process_go, if_neg hm]
      rw [ih highest hrest]
      unfold parsed28Matches
      simp [hm]

/-- C2 (amended): whenever every matching entry's `28d_click` value
parses, Policy B returns `ok` of the running maximum — started at `0` —
of the parsed `28d_click` values of the entries with the custom action
type.  In particular it returns the integer `0` both when matching
entries exist without the `28d_click` key and when no matching entry
exists at all; the result is never absent. -/
theorem policyB_returns_floored_max
    (entries : List ActionEntry)
    (hok : ∀ a ∈ entries,
      a.action_type = customType → a.click28d ≠ some none) :
    process_custom_conversions_from_actions entries =
      Except.ok ((parsed28Matches entries).foldl max 0) :=
  process_go_eq entries 0 hok

/-- Witness for `policyB_returns_floored_max` on a one-entry row with
`28d_click` parsing to `5`. -/
theorem policyB_returns_floored_max_witness :
    process_custom_conversions_from_actions [entry28 5] = Except.ok 5 := by
  rw [policyB_returns_floored_max [entry28 5]
    (by intro a ha hm; rw [List.mem_singleton] at ha; subst ha
        simp [entry28])]
  rfl

/-- Counterexample to C2 as stated: with no matching action-type entry at
all — an empty list, or only an unrelated action type —
`process_custom_conversions_from_actions` returns the integer `0`, not an
absent value; it is indistinguishable from the entries-without-key case,
which also returns `0`. -/
theorem policyB_zero_not_absent_counterexample :
    process_custom_conversions_from_actions [] = Except.ok 0 ∧
    process_custom_conversions_from_actions [⟨"link_click", none, none⟩] =
      Except.ok 0 ∧
    process_custom_conversions_from_actions [⟨customType, none, none⟩] =
      Except.ok 0 :=
  ⟨rfl, rfl, rfl⟩

/-- Counterexample to C3 as stated: Policy B has no `try/except` around
`int(float(action['28d_click']))`, so a matching entry whose `28d_click`
value fails numeric parsing raises `ValueError` and aborts the row
instead of being skipped. -/
theorem policyB_raises_on_malformed_28d_click :
    process_custom_conversions_from_actions [bad28Entry] =
      Except.error "ValueError: could not convert string to float" := rfl

theorem process_go_nonneg (l : List ActionEntry) :
    ∀ highest n : ℤ, 0 ≤ highest →
      process_go l highest = Except.ok n → 0 ≤ n := by
  induction l with
  | nil =>
    intro highest n h0 he
    simp only [process_go, Except.ok.injEq] at he
    omega
  | cons a rest ih =>
    intro highest n h0 he
    unfold process_go at he
    by_cases hm : a.action_type = customType
    · rw [if_pos hm] at he
      cases h28 : a.click28d with
      | none => rw [h28] at he; exact ih highest n h0 he
      | some w =>
        cases w with
        | none => rw [h28] at he; cases he
        | some q =>
          rw [h28] at he
          refine ih _ n ?_ he
          split <;> omega
    · rw [if_neg hm] at he
      exact ih highest n h0 he

/-- C9: whenever reconciliation produces a present count — `some n` under
Policy A, `ok n` under Policy B — that count is a non-negative integer,
even when raw entries carry negative or fractional numeric values: under
Policy A a passing 35:1 ratio test forces both candidates positive
(`ratio_test_forces_pos`), so the result is positive or the explicitly
computed `0`; under Policy B the running maximum starts at `0` and only
increases. -/
theorem reconciled_count_nonneg :
    (∀ (actions action_values : List ActionEntry) (n : ℤ),
        get_correct_conversion_count actions action_values = some n →
        0 ≤ n) ∧
    (∀ (entries : List ActionEntry) (n : ℤ),
        process_custom_conversions_from_actions entries = Except.ok n →
        0 ≤ n) := by
  constructor
  · intro actions action_values n h
    unfold get_correct_conversion_count at h
    rcases hA : lastConv actions with _ | c <;> rw [hA] at h <;>
      rcases hB : lastConv action_values with _ | v <;> rw [hB] at h <;>
        dsimp only at h
    · cases h
    · cases h
    · cases h
    by_cases h00 : c = 0 ∧ v = 0
    · rw [if_pos h00] at h
      injection h with h'
      omega
    rw [if_neg h00] at h
    by_cases h0 : c = 0 ∨ v = 0
    · rw [if_pos h0] at h
      cases h
    rw [if_neg h0] at h
    push_neg at h0
    by_cases hr : |((max c v : ℤ) : ℚ) / ((min c v : ℤ) : ℚ) - 35| < 1
    · rw [if_pos hr] at h
      injection h with h'
      subst h'
      exact le_of_lt (ratio_test_forces_pos h0.1 h0.2 hr)
    · rw [if_neg hr] at h
      cases h
  · intro entries n h
    exact process_go_nonneg entries 0 n le_rfl h

/-- Witness for `reconciled_count_nonneg` at concrete rows under both
policies. -/
theorem reconciled_count_nonneg_witness : (0 : ℤ) ≤ 2 ∧ (0 : ℤ) ≤ 5 :=
  ⟨reconciled_count_nonneg.1 [entry1d 70] [entry1d 2] 2
      (by simp only [get_correct_conversion_count, lastConv_single]
          norm_num),
   reconciled_count_nonneg.2 [entry28 5] 5 rfl⟩

/-- The `while current < end_date` loop of `date_range_iterator` from
`facebook_api_to_json/src/utils/date_utils.py` (the identical loop is
`_date_range_iterator` in `src/fb_fetcher.py`), made total with a fuel
bound: the result is the list of windows yielded in at most `fuel`
iterations, paired with `true` iff the loop exited (reached
`current >= end_date`) within that bound — `false` means the loop is
still running after `fuel` iterations. -/
def date_range_iterator : ℕ → ℤ → ℤ → ℤ → List (ℤ × ℤ) × Bool
  | 0, current, end_date, _ =>
    if current < end_date then ([], false) else ([], true)
  | fuel + 1, current, end_date, increment_days =>
    if current < end_date then
      let period_end := min (current + increment_days) end_date
      let rest := date_range_iterator fuel period_end end_date increment_days
      ((current, period_end) :: rest.1, rest.2)
    else ([], true)

theorem dri_complete :
    ∀ (fuel : ℕ) (current end_date step : ℤ), 1 ≤ step →
      (end_date - current).toNat ≤ fuel →
      (date_range_iterator fuel current end_date step).2 = true ∧
      (∀ p ∈ (date_range_iterator fuel current end_date step).1,
          p.2 = min (p.1 + step) end_date ∧ p.1 < p.2 ∧ p.1 < end_date) ∧
      List.Chain' (fun p q => p.2 = q.1)
        (date_range_iterator fuel current end_date step).1 ∧
      (current < end_date →
        (date_range_iterator fuel current end_date step).1.head? =
          some (current, min (current + step) end_date)) ∧
      (¬ current < end_date →
        (date_range_iterator fuel current end_date step).1 = []) ∧
      (current < end_date →
        ((date_range_iterator fuel current end_date step).1.getLast?).map
          Prod.snd = some end_date) := by
  intro fuel
  induction fuel with
  | zero =>
    intro current end_date step hstep hfuel
    have hnot : ¬ current < end_date := by omega
    simp [date_range_iterator, hnot]
  | succ n ih =>
    intro current end_date step hstep hfuel
    by_cases hlt : current < end_date
    · have hpe_le : min (current + step) end_date ≤ end_date :=
        min_le_right _ _
      have hlt_pe : current < min (current + step) end_date := by
        rcases le_total (current + step) end_date with h | h
        · rw [min_eq_left h]; omega
        · rw [min_eq_right h]; omega
      have hfuel' : (end_date - min (current + step) end_date).toNat ≤ n := by
        rcases le_total (current + step) end_date with h | h
        · rw [min_eq_left h]; omega
        · rw [min_eq_right h]; omega
      obtain ⟨ht, hall, hchain, hhead, hempty, hlast⟩ :=
        ih (min (current + step) end_date) end_date step hstep hfuel'
      simp only [date_range_iterator, if_pos hlt]
      refine ⟨ht, ?_, ?_, ?_, ?_, ?_⟩
      · intro p hp
        rcases List.mem_cons.mp hp with rfl | hp
        · exact ⟨rfl, hlt_pe, hlt⟩
        · exact hall p hp
      · rcases hrest : (date_range_iterator n
            (min (current + step) end_date) end_date step).1 with _ | ⟨q, tail⟩
        · simp [hrest]
        · rw [hrest] at hchain hhead hempty
          refine List.chain'_cons.mpr ⟨?_, hchain⟩
          by_cases hpe : min (current + step) end_date < end_date
          · have hq := hhead hpe
            simp only [List.head?_cons, Option.some.injEq] at hq
            rw [hq]
          · exact absurd (hempty hpe) (List.cons_ne_nil q tail)
      · intro _
        simp
      · intro h
        exact absurd hlt h
      · intro _
        by_cases hpe : min (current + step) end_date < end_date
        · rcases hrest : (date_range_iterator n
              (min (current + step) end_date) end_date step).1
            with _ | ⟨q, tail⟩
          · rw [hrest] at hhead
            simp [hpe] at hhead
          · rw [hrest] at hlast
            simp only [List.getLast?_cons_cons]
            exact hlast hpe
        · have hend : min (current + step) end_date = end_date := by omega
          rw [hempty hpe]
          simp [hend]
    · have hnot := hlt
      simp [date_range_iterator, hnot]

theorem dri_nonpos_step :
    ∀ (fuel : ℕ) (current end_date step : ℤ), step ≤ 0 →
      current < end_date →
      (date_range_iterator fuel current end_date step).2 = false := by
  intro fuel
  induction fuel with
  | zero =>
    intro current end_date step _ hlt
    simp [date_range_iterator, hlt]
  | succ n ih =>
    intro current end_date step hstep hlt
    have hpe : min (current + step) end_date < end_date := by
      have : current + step < end_date := by omega
      rcases le_total (current + step) end_date with h | h
      · rw [min_eq_left h]; omega
      · rw [min_eq_right h]; omega
    simp only [date_range_iterator, if_pos hlt]
    exact ih _ end_date step hstep hpe

/-- C4: for `start < end` and `step_days >= 1` the window iteration
terminates and yields exactly the half-open windows
`[cur, min(cur+step, end))` — the first starts at `start`, every window
satisfies `period_end = min(period_start+step, end)` with
`period_start < period_end < = end`, consecutive windows are adjacent
(each begins where the previous ended), and the last one ends at `end`;
in particular a 3-day range with `step_days = 1` yields exactly the three
windows `[d,d+1) [d+1,d+2) [d+2,d+3)` in order. -/
theorem window_iteration_spec :
    (∀ start_date end_date step : ℤ, start_date < end_date → 1 ≤ step →
      ∃ ws, date_range_iterator (end_date - start_date).toNat
          start_date end_date step = (ws, true) ∧
        ws.head? = some (start_date, min (start_date + step) end_date) ∧
        (ws.getLast?).map Prod.snd = some end_date ∧
        (∀ p ∈ ws, p.2 = min (p.1 + step) end_date ∧
          p.1 < p.2 ∧ p.1 < end_date) ∧
        List.Chain' (fun p q => p.2 = q.1) ws) ∧
    (∀ d : ℤ, date_range_iterator 3 d (d + 3) 1 =
      ([(d, d + 1), (d + 1, d + 2), (d + 2, d + 3)], true)) := by
  constructor
  · intro start_date end_date step hlt hstep
    obtain ⟨ht, hall, hchain, hhead, _, hlast⟩ :=
      dri_complete (end_date - start_date).toNat start_date end_date step
        hstep le_rfl
    refine ⟨(date_range_iterator (end_date - start_date).toNat
        start_date end_date step).1, ?_, hhead hlt, hlast hlt, hall, hchain⟩
    rw [← ht]
  · intro d
    have h1 : d < d + 3 := by omega
    have h2 : d + 1 < d + 3 := by omega
    have h3 : d + 2 < d + 3 := by omega
    have hn3 : ¬ d + 3 < d + 3 := by omega
    have m1 : min (d + 1) (d + 3) = d + 1 := min_eq_left (by omega)
    have m2 : min (d + 1 + 1) (d + 3) = d + 2 := by
      rw [min_eq_left (by omega)]; ring
    have m3 : min (d + 2 + 1) (d + 3) = d + 3 := by
      rw [min_eq_left (by omega)]; ring
    simp only [date_range_iterator, if_pos h1, m1, if_pos h2, m2,
      if_pos h3, m3, if_neg hn3]

/-- Witness for `window_iteration_spec` on the range `[0, 3)` with
step 1. -/
theorem window_iteration_spec_witness :
    ∃ ws, date_range_iterator ((3 : ℤ) - 0).toNat 0 3 1 = (ws, true) ∧
      ws.head? = some (0, min (0 + 1) 3) ∧
      (ws.getLast?).map Prod.snd = some 3 ∧
      (∀ p ∈ ws, p.2 = min (p.1 + 1) 3 ∧ p.1 < p.2 ∧ p.1 < 3) ∧
      List.Chain' (fun p q => p.2 = q.1) ws :=
  window_iteration_spec.1 0 3 1 (by decide) (by decide)

/-- The run-level validation and window loop of `fetch_insights` from
`src/fb_fetcher.py` (lines 114–165): dates are validated
(`ValueError` when `since >= until`) before any window fetch, then the
window loop runs and every yielded window is one `get_insights` fetch.
`step_days` is not validated anywhere.  The fuel bound and the `Bool`
are as in `date_range_iterator`. -/
def fetch_insights_windows (fuel : ℕ) (since until_d step_days : ℤ) :
    Except String (List (ℤ × ℤ) × Bool) :=
  if since ≥ until_d then
    Except.error "`since` must be before `until` date"
  else Except.ok (date_range_iterator fuel since until_d step_days)

/-- C6 (amended): an invalid date range (`start >= end`) does raise a
configuration `ValueError` before any window fetch is attempted; but
`step_days < 1` is not validated: no error is raised and the window loop
never terminates — after any number of iterations it is still running
(and has been issuing a fetch per yielded window). -/
theorem config_validation_dates_only :
    (∀ (fuel : ℕ) (since until_d step_days : ℤ), until_d ≤ since →
      fetch_insights_windows fuel since until_d step_days =
        Except.error "`since` must be before `until` date") ∧
    (∀ (fuel : ℕ) (since until_d step_days : ℤ), step_days ≤ 0 →
      since < until_d →
      ∃ ws, fetch_insights_windows fuel since until_d step_days =
        Except.ok (ws, false)) := by
  constructor
  · intro fuel since until_d step_days hge
    rw [fetch_insights_windows, if_pos (by omega)]
  · intro fuel since until_d step_days hstep hlt
    refine ⟨(date_range_iterator fuel since until_d step_days).1, ?_⟩
    rw [fetch_insights_windows, if_neg (by omega)]
    rw [← dri_nonpos_step fuel since until_d step_days hstep hlt]

/-- Witness for `config_validation_dates_only`: an inverted range is
rejected; a zero `step_days` on a valid range yields `ok` with the loop
still running. -/
theorem config_validation_dates_only_witness :
    fetch_insights_windows 5 3 3 1 =
      Except.error "`since` must be before `until` date" ∧
    ∃ ws, fetch_insights_windows 5 0 3 0 = Except.ok (ws, false) :=
  ⟨config_validation_dates_only.1 5 3 3 1 (by decide),
   config_validation_dates_only.2 5 0 3 0 (by decide) (by decide)⟩

/-- Counterexample to C6 as stated: with `step_days = 0` on the valid
range `[0, 3)` no configuration error is surfaced, and after five loop
iterations five window fetches `[0, 0)` have already been issued with
the loop still running — the run neither fails immediately nor stops. -/
theorem step_days_not_validated_counterexample :
    fetch_insights_windows 5 0 3 0 =
      Except.ok ([(0, 0), (0, 0), (0, 0), (0, 0), (0, 0)], false) := rfl

/-- `fetch_daily_data(account, single_date)` from
`facebook_api_to_json/src/main.py` (lines 28–93): the body is one big
`try/except`.  On success the day's rows are saved to the sink (modelled
as being returned) and the function returns `True`; any exception raised
by the external fetch is caught, logged, and the function returns
`False` — that day contributes zero rows.  The external per-window fetch
is a parameter. -/
def fetch_daily_data {α : Type} (fetch : ℤ → Except String (List α))
    (single_date : ℤ) : Bool × List α :=
  match fetch single_date with
  | Except.ok rows => (true, rows)
  | Except.error _ => (false, [])

/-- The days visited by `main()`'s `while current_date <= end_date` loop
(step one day), in order. -/
def daysInclusive (start_date end_date : ℤ) : List ℤ :=
  (List.range (end_date - start_date + 1).toNat).map
    (fun i => start_date + (i : ℤ))

/-- `main()`'s day-by-day loop from `facebook_api_to_json/src/main.py`
(lines 95–123): each day in the range is processed with
`fetch_daily_data`; a failed day only logs a warning and the loop
continues.  The run's durable output — the union of the per-day files —
is modelled as the concatenation of each day's saved rows in date
order. -/
def main_run {α : Type} (fetch : ℤ → Except String (List α))
    (start_date end_date : ℤ) : List α :=
  ((daysInclusive start_date end_date).map
    (fun d => (fetch_daily_data fetch d).2)).flatten

theorem main_run_filter {α : Type} (fetch : ℤ → Except String (List α)) :
    ∀ days : List ℤ,
      (days.map (fun d => (fetch_daily_data fetch d).2)).flatten =
        ((days.filter (fun d => (fetch_daily_data fetch d).1)).map
          (fun d => (fetch_daily_data fetch d).2)).flatten := by
  intro days
  induction days with
  | nil => rfl
  | cons d rest ih =>
    cases hf : fetch d with
    | ok rows =>
      have hfd : fetch_daily_data fetch d = (true, rows) := by
        rw [fetch_daily_data, hf]
      simp only [List.map_cons, List.flatten_cons, List.filter_cons, hfd,
        List.map_cons]
      simp only [ih]
      simp [hfd]
    | error e =>
      have hfd : fetch_daily_data fetch d = (false, []) := by
        rw [fetch_daily_data, hf]
      simp only [List.map_cons, List.flatten_cons, List.filter_cons, hfd]
      simp only [ih]
      simp

/-- C5: a fetch failure for one window is caught at the window boundary
(`fetch_daily_data` returns `False` with zero rows instead of
propagating), the run continues with subsequent windows, and the final
output is exactly the concatenation, in date order, of the rows of every
window whose fetch succeeded.  In particular, over three days with only
the second fetch raising, the run returns the rows of windows 1 and 3. -/
theorem run_best_effort_partial_results :
    (∀ (α : Type) (fetch : ℤ → Except String (List α))
        (start_date end_date : ℤ),
      main_run fetch start_date end_date =
        (((daysInclusive start_date end_date).filter
            (fun d => (fetch_daily_data fetch d).1)).map
          (fun d => (fetch_daily_data fetch d).2)).flatten) ∧
    (∀ (α : Type) (r1 r3 : List α) (err : String),
      main_run (fun d => if d = 0 then Except.ok r1
        else if d = 1 then Except.error err else Except.ok r3) 0 2 =
        r1 ++ r3) := by
  constructor
  · intro α fetch start_date end_date
    exact main_run_filter fetch (daysInclusive start_date end_date)
  · intro α r1 r3 err
    have hdays : daysInclusive 0 2 = [0, 1, 2] := by decide
    simp [main_run, hdays, fetch_daily_data]

/-- A reconciled per-ad, per-day row as consumed by
`display_performance_metrics` in `src/streamlit_app.py`: identifiers,
date, the standard metrics, and the custom conversion count —
`none` models a row lacking the count (NaN/missing in the frame). -/
structure ReconciledRow where
  ad_id : String
  date : ℤ
  impressions : ℤ
  clicks : ℤ
  spend : ℚ
  custom_conversion_count : Option ℤ
deriving DecidableEq

/-- The per-ad totals produced by `groupby('ad_id').agg(sum)`. -/
structure RollupMetrics where
  impressions : ℤ
  clicks : ℤ
  spend : ℚ
  custom_conversion_count : ℤ
deriving DecidableEq

def zeroMetrics : RollupMetrics := ⟨0, 0, 0, 0⟩

/-- Accumulate one row into the per-ad sums; the absent custom count
contributes `0` (the `.fillna(0)` of line 387 of `src/streamlit_app.py`)
while the row's impressions/clicks/spend still contribute. -/
def addRow (m : RollupMetrics) (r : ReconciledRow) : RollupMetrics :=
  ⟨m.impressions + r.impressions, m.clicks + r.clicks, m.spend + r.spend,
   m.custom_conversion_count + r.custom_conversion_count.getD 0⟩

/-- The date filter of `display_performance_metrics`:
`(date >= start_date) & (date <= end_date)` — both ends inclusive. -/
def dateMask (start_date end_date : ℤ) (r : ReconciledRow) : Bool :=
  decide (start_date ≤ r.date) && decide (r.date ≤ end_date)

/-- `groupby('ad_id').agg(...)` read off for one ad: fold the rows,
summing those whose `ad_id` matches. -/
def groupByAd (rows : List ReconciledRow) (ad : String) : RollupMetrics :=
  rows.foldl (fun m r => if r.ad_id = ad then addRow m r else m) zeroMetrics

/-- `rollup(series, ad_id, start, end)`: the aggregation pipeline of
`display_performance_metrics` (lines 341–411 of `src/streamlit_app.py`)
— apply the inclusive date mask, then the per-ad groupby sums. -/
def rollup (series : List ReconciledRow) (ad : String)
    (start_date end_date : ℤ) : RollupMetrics :=
  groupByAd (series.filter (dateMask start_date end_date)) ad

theorem groupByAd_sums (ad : String) :
    ∀ (rows : List ReconciledRow) (m : RollupMetrics),
      rows.foldl (fun m r => if r.ad_id = ad then addRow m r else m) m =
        ⟨m.impressions +
            ((rows.filter (fun r => r.ad_id = ad)).map
              (fun r => r.impressions)).sum,
         m.clicks +
            ((rows.filter (fun r => r.ad_id = ad)).map
              (fun r => r.clicks)).sum,
         m.spend +
            ((rows.filter (fun r => r.ad_id = ad)).map
              (fun r => r.spend)).sum,
         m.custom_conversion_count +
            ((rows.filter (fun r => r.ad_id = ad)).map
              (fun r => r.custom_conversion_count.getD 0)).sum⟩ := by
  intro rows
  induction rows with
  | nil =>
    intro m
    simp only [List.foldl_nil, List.filter_nil, List.map_nil,
      List.sum_nil, add_zero]
  | cons r rest ih =>
    intro m
    simp only [List.foldl_cons]
    by_cases hr : r.ad_id = ad
    · rw [if_pos hr, ih]
      simp only [List.filter_cons, hr, decide_True, if_true, List.map_cons,
        List.sum_cons, addRow, RollupMetrics.mk.injEq]
      refine ⟨by ring, by ring, by ring, by ring⟩
    · rw [if_neg hr, ih]
      simp only [List.filter_cons, hr, decide_False]
      simp

/-- C7: `rollup` returns, for each of the four fields, the sum over
exactly the rows of the given ad whose date lies in the inclusive range
`[start, end]`; a row with an absent custom count contributes `0` to
that field while still contributing its impressions, clicks and spend.
In particular the two-row example sums to
`impressions=300, clicks=30, custom_conversion_count=2`. -/
theorem rollup_sums_inclusive_range :
    (∀ (series : List ReconciledRow) (ad : String)
        (start_date end_date : ℤ),
      rollup series ad start_date end_date =
        ⟨((series.filter (fun r => decide (r.ad_id = ad) &&
              dateMask start_date end_date r)).map
            (fun r => r.impressions)).sum,
         ((series.filter (fun r => decide (r.ad_id = ad) &&
              dateMask start_date end_date r)).map
            (fun r => r.clicks)).sum,
         ((series.filter (fun r => decide (r.ad_id = ad) &&
              dateMask start_date end_date r)).map
            (fun r => r.spend)).sum,
         ((series.filter (fun r => decide (r.ad_id = ad) &&
              dateMask start_date end_date r)).map
            (fun r => r.custom_conversion_count.getD 0)).sum⟩) ∧
    rollup [⟨"A", 0, 100, 10, 1, some 2⟩, ⟨"A", 1, 200, 20, 2, none⟩]
        "A" 0 1 = ⟨300, 30, 3, 2⟩ := by
  have hmain : ∀ (series : List ReconciledRow) (ad : String)
      (start_date end_date : ℤ),
      rollup series ad start_date end_date =
        ⟨((series.filter (fun r => decide (r.ad_id = ad) &&
              dateMask start_date end_date r)).map
            (fun r => r.impressions)).sum,
         ((series.filter (fun r => decide (r.ad_id = ad) &&
              dateMask start_date end_date r)).map
            (fun r => r.clicks)).sum,
         ((series.filter (fun r => decide (r.ad_id = ad) &&
              dateMask start_date end_date r)).map
            (fun r => r.spend)).sum,
         ((series.filter (fun r => decide (r.ad_id = ad) &&
              dateMask start_date end_date r)).map
            (fun r => r.custom_conversion_count.getD 0)).sum⟩ := by
    intro series ad start_date end_date
    unfold rollup groupByAd
    rw [groupByAd_sums ad, List.filter_filter]
    simp [zeroMetrics]
  refine ⟨hmain, ?_⟩
  rw [hmain]
  norm_num [dateMask]

/-- A ctr/cpc/cpm triple; `none` models a pandas NA entry (which the
display later skips via `pd.notna`). -/
structure Rates where
  ctr : Option ℚ
  cpc : Option ℚ
  cpm : Option ℚ
deriving DecidableEq

/-- Round-half-to-even at integer precision (the rounding used by
`.round` on the frame), on the exact rational. -/
def bankersRound (q : ℚ) : ℤ :=
  if q - ⌊q⌋ < 1 / 2 then ⌊q⌋
  else if 1 / 2 < q - ⌊q⌋ then ⌊q⌋ + 1
  else if ⌊q⌋ % 2 = 0 then ⌊q⌋ else ⌊q⌋ + 1

/-- `.round(2)`: round to two decimal places. -/
def round2 (q : ℚ) : ℚ := (bankersRound (q * 100) : ℚ) / 100

/-- `derived_rates`: the rate computation of `display_performance_metrics`
(lines 413–429 of `src/streamlit_app.py`).  Every denominator goes
through `.replace(0, pd.NA)`, so a zero denominator produces NA (absent)
— never an exception:
`ctr = clicks / impressions.replace(0, NA) * 100`,
`cpc = spend / clicks.replace(0, NA)`,
`cpm = spend / impressions.replace(0, NA) * 1000`, each `.round(2)`. -/
def derived_rates (m : RollupMetrics) : Rates :=
  ⟨if m.impressions = 0 then none
    else some (round2 ((m.clicks : ℚ) / (m.impressions : ℚ) * 100)),
   if m.clicks = 0 then none
    else some (round2 (m.spend / (m.clicks : ℚ))),
   if m.impressions = 0 then none
    else some (round2 (m.spend / (m.impressions : ℚ) * 1000))⟩

/-- C8 (amended): `derived_rates` never raises on a zero denominator, but
the affected rate is absent (pandas NA), not `0`: zero impressions make
`ctr` and `cpm` absent, zero clicks make `cpc` absent; on
`{impressions=0, clicks=0, spend=0}` all three rates are absent. -/
theorem derived_rates_absent_on_zero_denominator (m : RollupMetrics) :
    (m.impressions = 0 →
      (derived_rates m).ctr = none ∧ (derived_rates m).cpm = none) ∧
    (m.clicks = 0 → (derived_rates m).cpc = none) := by
  constructor
  · intro h
    constructor <;> simp [derived_rates, h]
  · intro h
    simp [derived_rates, h]

/-- Witness for `derived_rates_absent_on_zero_denominator` on the
all-zero metrics. -/
theorem derived_rates_absent_on_zero_denominator_witness :
    (derived_rates ⟨0, 0, 0, 0⟩).ctr = none ∧
    (derived_rates ⟨0, 0, 0, 0⟩).cpm = none ∧
    (derived_rates ⟨0, 0, 0, 0⟩).cpc = none :=
  ⟨((derived_rates_absent_on_zero_denominator ⟨0, 0, 0, 0⟩).1 rfl).1,
   ((derived_rates_absent_on_zero_denominator ⟨0, 0, 0, 0⟩).1 rfl).2,
   (derived_rates_absent_on_zero_denominator ⟨0, 0, 0, 0⟩).2 rfl⟩

/-- Counterexample to C8 as stated: on
`{impressions=0, clicks=0, spend=0}` the rates are NA (absent, later
skipped by the display), not `0` — `ctr = some 0` is false. -/
theorem derived_rates_zero_metrics_counterexample :
    derived_rates ⟨0, 0, 0, 0⟩ = ⟨none, none, none⟩ ∧
    (derived_rates ⟨0, 0, 0, 0⟩).ctr ≠ some 0 := by
  constructor
  · rfl
  · simp [derived_rates]
